import Mathlib

/-!
Verification of the `greatest` scalar function (`src/datafusion/functions/src/math/greatest.rs`).

The development shallowly embeds the Rust source:

* `DataType`, `ScalarValue`, `Arr` (arrow array) and `ColumnarValue` model the
  data the function manipulates.  The embedding carries one representative
  primitive integer type (`int32`), one string type (`utf8`) and one
  nested/composite type (`listInt32`), which is enough to exercise every
  branch of the source (null handling, the non-nested native order, and the
  nested comparator path).
* The arrow kernels `make_comparator` and `zip`, and the planner predicate
  `can_coerce_from`, are external to the repository fragment; they are
  modelled from the spec (ascending order with nulls sorting first; masked
  elementwise select; an abstract coercibility predicate passed as an
  argument).
* Fallible Rust functions returning `Result` become Lean functions returning
  `Except RunError`; the one reachable `unwrap` panic site of `invoke` is
  modelled by the distinguished error `RunError.crash`.
-/

namespace Greatest

/-- Type tags, matching the `DataType` variants the fragment exercises:
the special `Null` (unknown/absent) type, a primitive type, a string type and
one nested/composite type. -/
inductive DataType
  | null
  | int32
  | utf8
  | listInt32
deriving DecidableEq, Repr

/-- Arrow `DataType::is_nested`: true exactly for nested/composite types. -/
def DataType.is_nested : DataType → Bool
  | .listInt32 => true
  | _ => false

/-- A single nullable scalar datum (`ScalarValue` in the source). -/
inductive ScalarValue
  | int32 (v : Option Int)
  | utf8 (v : Option String)
  | listInt32 (v : Option (List (Option Int)))
deriving DecidableEq, Repr

/-- `ScalarValue::is_null`. -/
def ScalarValue.is_null : ScalarValue → Bool
  | .int32 none => true
  | .utf8 none => true
  | .listInt32 none => true
  | _ => false

/-- `ScalarValue::data_type`. -/
def ScalarValue.data_type : ScalarValue → DataType
  | .int32 _ => .int32
  | .utf8 _ => .utf8
  | .listInt32 _ => .listInt32

/-- Three-way comparison induced by a linear order (the native total order of
a primitive representation). -/
def cmpOf {α : Type} [LinearOrder α] (a b : α) : Ordering :=
  if a < b then .lt else if a = b then .eq else .gt

/-- Lift a comparison to nullable values with null sorting first (null is the
smallest possible value), as arrow comparators do under
`SortOptions { descending: false, nulls_first: true }`. -/
def optCompare {α : Type} (cmp : α → α → Ordering) : Option α → Option α → Ordering
  | none, none => .eq
  | none, some _ => .lt
  | some _, none => .gt
  | some a, some b => cmp a b

/-- Lexicographic comparison of the nested (list) representation, elements
compared null-first. -/
def nestedCmp : List (Option Int) → List (Option Int) → Ordering
  | [], [] => .eq
  | [], _ :: _ => .lt
  | _ :: _, [] => .gt
  | x :: xs, y :: ys =>
    match optCompare cmpOf x y with
    | .eq => nestedCmp xs ys
    | o => o

/-- Rust `PartialOrd::partial_cmp` on `ScalarValue`: values of distinct types
are incomparable (`None`); same-typed values compare through their nullable
contents with `None` ordered below `Some`. -/
def scalarPartialCmp : ScalarValue → ScalarValue → Option Ordering
  | .int32 a, .int32 b => some (optCompare cmpOf a b)
  | .utf8 a, .utf8 b => some (optCompare cmpOf a b)
  | .listInt32 a, .listInt32 b => some (optCompare nestedCmp a b)
  | _, _ => none

/-- Rust `lhs >= rhs` on `ScalarValue`: true iff `partial_cmp` yields
`Greater` or `Equal` (false for incomparable operands). -/
def scalarGe (lhs rhs : ScalarValue) : Bool :=
  match scalarPartialCmp lhs rhs with
  | some o => o.isGE
  | none => false

/-- An arrow array: a homogeneous sequence of nullable values. -/
inductive Arr
  | int32 (vs : List (Option Int))
  | utf8 (vs : List (Option String))
  | listInt32 (vs : List (Option (List (Option Int))))
deriving DecidableEq, Repr

/-- `Array::len`. -/
def Arr.len : Arr → Nat
  | .int32 vs => vs.length
  | .utf8 vs => vs.length
  | .listInt32 vs => vs.length

/-- `Array::data_type`. -/
def Arr.data_type : Arr → DataType
  | .int32 _ => .int32
  | .utf8 _ => .utf8
  | .listInt32 _ => .listInt32

/-- The element of an array at row `i`, viewed as a scalar (out-of-range rows
read as null; the source only ever reads in-range rows). -/
def Arr.entry : Arr → Nat → ScalarValue
  | .int32 vs, i => .int32 (vs.getD i none)
  | .utf8 vs, i => .utf8 (vs.getD i none)
  | .listInt32 vs, i => .listInt32 (vs.getD i none)

/-- The errors the embedded fragment can produce: the arity execution error
(carrying the actual argument count), the planner error of the coercion
resolver, errors propagated from the trusted kernels, and `crash`, which
models a Rust panic (`unwrap` on `None`). -/
inductive RunError
  | arity (got : Nat)
  | plan (msg : String)
  | primitive (msg : String)
  | crash
deriving DecidableEq, Repr

/-- Modelled from the spec: the row-ordering comparator primitive
`make_comparator(columnA, columnB, order_options)` (an external arrow kernel).
Under the fragment's constant options (ascending, nulls first) it orders rows
of two same-typed columns with null below every present value; for columns of
distinct types no comparator can be built and an error is returned. -/
def make_comparator (lhs rhs : Arr) : Except RunError (Nat → Nat → Ordering) :=
  match lhs, rhs with
  | .int32 a, .int32 b =>
    .ok (fun i j => optCompare cmpOf (a.getD i none) (b.getD j none))
  | .utf8 a, .utf8 b =>
    .ok (fun i j => optCompare cmpOf (a.getD i none) (b.getD j none))
  | .listInt32 a, .listInt32 b =>
    .ok (fun i j => optCompare nestedCmp (a.getD i none) (b.getD j none))
  | _, _ => .error (.primitive "Cannot compare arrays of different types")

/-- Elementwise masked select on raw lists: row `i` of the result is
`a[i]` where the mask is true and `b[i]` otherwise; the result has the
mask's length. -/
def zipList {α : Type} (mask : List Bool) (a b : List α) (d : α) : List α :=
  (List.range mask.length).map fun i =>
    if mask.getD i false then a.getD i d else b.getD i d

/-- Modelled from the spec: the masked-merge kernel `zip(mask, truthy, falsy)`
(an external arrow kernel).  Per the spec it selects, for each row, the left
value where the mask is true and the right value otherwise, producing a new
column of the mask's length; mismatched element types are a kernel error. -/
def zip (mask : List Bool) (lhs rhs : Arr) : Except RunError Arr :=
  match lhs, rhs with
  | .int32 a, .int32 b => .ok (.int32 (zipList mask a b none))
  | .utf8 a, .utf8 b => .ok (.utf8 (zipList mask a b none))
  | .listInt32 a, .listInt32 b => .ok (.listInt32 (zipList mask a b none))
  | _, _ => .error (.primitive "Cannot zip arrays of different types")

/-- `get_larger` from the source: build the comparator, then for each row
`i < min(len(lhs), len(rhs))` record whether `cmp(i, i)` is greater-or-equal
(nulls are considered smaller than any value). -/
def get_larger (lhs rhs : Arr) : Except RunError (List Bool) := do
  let cmp ← make_comparator lhs rhs
  let len := min lhs.len rhs.len
  pure ((List.range len).map fun i => (cmp i i).isGE)

/-- `keep_larger` from the source: compute the keep-left mask with
`get_larger`, then `zip` the two arrays under it. -/
def keep_larger (lhs rhs : Arr) : Except RunError Arr := do
  let keep_lhs ← get_larger lhs rhs
  zip keep_lhs lhs rhs

/-- `ScalarValue::to_array`: a one-element array holding the scalar. -/
def ScalarValue.to_array : ScalarValue → Arr
  | .int32 v => .int32 [v]
  | .utf8 v => .utf8 [v]
  | .listInt32 v => .listInt32 [v]

/-- `ScalarValue::to_array_of_size`: broadcast the scalar to an array in
which every one of `n` rows holds the same value. -/
def ScalarValue.to_array_of_size : ScalarValue → Nat → Arr
  | .int32 v, n => .int32 (List.replicate n v)
  | .utf8 v, n => .utf8 (List.replicate n v)
  | .listInt32 v, n => .listInt32 (List.replicate n v)

/-- `keep_larger_scalar` from the source: nulls lose unconditionally (a null
left operand yields the right operand even when it is itself null); non-nested
types use the native order `lhs >= rhs`; nested types delegate to the
row comparator on one-element arrays.  Ties keep the left operand. -/
def keep_larger_scalar (lhs rhs : ScalarValue) : Except RunError ScalarValue :=
  if lhs.is_null then .ok rhs
  else if rhs.is_null then .ok lhs
  else if !lhs.data_type.is_nested then
    if scalarGe lhs rhs then .ok lhs else .ok rhs
  else do
    let cmp ← make_comparator lhs.to_array rhs.to_array
    if (cmp 0 0).isGE then pure lhs else pure rhs

/-- The recursive scan of `find_coerced_type`'s `for` loop: return the first
candidate (in order) into which every type of `all` is coercible. -/
def firstCoercibleCandidate (coe : DataType → DataType → Bool)
    (all : List DataType) : List DataType → Option DataType
  | [] => none
  | c :: rest =>
    if all.all (fun t => coe c t) then some c
    else firstCoercibleCandidate coe all rest

/-- `find_coerced_type` from the source, parameterised by the host type
system's coercibility predicate `coe` (`can_coerce_from(type_into, from)`):
drop every `Null` occurrence; if nothing remains the result is `Null`;
otherwise the first remaining type into which all remaining types are
coercible wins; with no such candidate, a planner error. -/
def find_coerced_type (coe : DataType → DataType → Bool)
    (data_types : List DataType) : Except RunError DataType :=
  let non_null_types := data_types.filter fun t => decide (t ≠ DataType.null)
  if non_null_types.isEmpty then .ok DataType.null
  else
    match firstCoercibleCandidate coe non_null_types non_null_types with
    | some t => .ok t
    | none => .error (.plan "Cannot find a common type for arguments")

/-- `GreatestFunc::return_type`: delegates directly to `find_coerced_type`
(no arity check in the source). -/
def return_type (coe : DataType → DataType → Bool)
    (arg_types : List DataType) : Except RunError DataType :=
  find_coerced_type coe arg_types

/-- `GreatestFunc::coerce_types`: reject fewer than 2 argument types with the
arity error carrying the actual count, then repeat the resolved common type
once per argument. -/
def coerce_types (coe : DataType → DataType → Bool)
    (arg_types : List DataType) : Except RunError (List DataType) :=
  if arg_types.length < 2 then .error (.arity arg_types.length)
  else do
    let coerced ← find_coerced_type coe arg_types
    pure (List.replicate arg_types.length coerced)

/-- A runtime argument: a broadcastable scalar or a full column
(`ColumnarValue` in the source). -/
inductive ColumnarValue
  | Scalar (s : ScalarValue)
  | Array (a : Arr)
deriving DecidableEq, Repr

/-- The scalar payload of an argument, when it is a scalar. -/
def extractScalar : ColumnarValue → Option ScalarValue
  | .Scalar s => some s
  | .Array _ => none

/-- The array payload of an argument, when it is an array. -/
def extractArray : ColumnarValue → Option Arr
  | .Array a => some a
  | .Scalar _ => none

/-- The body of `GreatestFunc::invoke` after partitioning: collapse the
scalar group left-to-right through `keep_larger_scalar` starting from the
first scalar; if no arrays remain return the merged scalar (the source
`unwrap`s it — modelled by `RunError.crash` when absent); otherwise seed the
running result from the first array (merged with the broadcast merged scalar
when one exists) and fold the remaining arrays through `keep_larger`. -/
def invokeCore (scalars : List ScalarValue) (arrays : List Arr) :
    Except RunError ColumnarValue :=
  let merged_scalarE : Except RunError (Option ScalarValue) :=
    match scalars with
    | [] => .ok none
    | s :: rest => Except.map some (rest.foldlM keep_larger_scalar s)
  match merged_scalarE with
  | .error e => .error e
  | .ok merged_scalar =>
    match arrays with
    | [] =>
      match merged_scalar with
      | some s => .ok (.Scalar s)
      | none => .error .crash
    | first_array :: rest_arrays =>
      let seedE : Except RunError Arr :=
        match merged_scalar with
        | some scalar =>
          keep_larger first_array (scalar.to_array_of_size first_array.len)
        | none => .ok first_array
      match seedE with
      | .error e => .error e
      | .ok seed =>
        match rest_arrays.foldlM keep_larger seed with
        | .error e => .error e
        | .ok largest => .ok (.Array largest)

/-- `GreatestFunc::invoke`: arity check, then partition the arguments into
the scalar group and the array group (each keeping its internal relative
order) and run the scalar-collapse / column-fold body on the two groups. -/
def invoke (args : List ColumnarValue) : Except RunError ColumnarValue :=
  if args.length < 2 then .error (.arity args.length)
  else
    let parts := args.partition fun x => (extractScalar x).isSome
    invokeCore (parts.1.filterMap extractScalar) (parts.2.filterMap extractArray)

/-! ### Spec-side reference definitions -/

/-- The type resolver as the spec's §4.1 words describe it, for comparison
with the source's `find_coerced_type`: discard every occurrence of the
unknown/absent type; if none remain the result is the unknown/absent type;
otherwise the first remaining type, in original order, into which every
remaining type is coercible; else a planning-time error. -/
def resolve_spec (coe : DataType → DataType → Bool)
    (types : List DataType) : Except RunError DataType :=
  let remaining := types.filter fun t => decide (t ≠ DataType.null)
  if remaining.isEmpty then .ok DataType.null
  else
    match remaining.find? (fun c => remaining.all fun t => coe c t) with
    | some c => .ok c
    | none => .error (.plan "Cannot find a common type for arguments")

/-- The spec's §4.2 rule 3 comparison, written from the spec's words: the
native total order's greater-or-equal on two non-null, same-typed, non-nested
scalars. -/
def native_ge : ScalarValue → ScalarValue → Bool
  | .int32 (some x), .int32 (some y) => decide (y ≤ x)
  | .utf8 (some x), .utf8 (some y) => decide (y ≤ x)
  | _, _ => false

/-! ### Basic comparison lemmas -/

lemma cmpOf_self {α : Type} [LinearOrder α] (x : α) : cmpOf x x = .eq := by
  simp [cmpOf]

lemma cmpOf_isGE {α : Type} [LinearOrder α] (x y : α) :
    (cmpOf x y).isGE = decide (y ≤ x) := by
  unfold cmpOf
  split_ifs with h1 h2
  · simp [Ordering.isGE, not_le.mpr h1]
  · subst h2; simp [Ordering.isGE]
  · have hle : y ≤ x := le_of_not_lt h1
    simp [Ordering.isGE, hle]

lemma optCompare_cmpOf_self {α : Type} [LinearOrder α] (x : Option α) :
    optCompare cmpOf x x = .eq := by
  cases x <;> simp [optCompare, cmpOf_self]

lemma nestedCmp_self (xs : List (Option Int)) : nestedCmp xs xs = .eq := by
  induction xs with
  | nil => rfl
  | cons x t ih => simp [nestedCmp, optCompare_cmpOf_self, ih]

/-! ### C1: the type resolver -/

lemma firstCoercibleCandidate_eq_find (coe : DataType → DataType → Bool)
    (all : List DataType) :
    ∀ l, firstCoercibleCandidate coe all l = l.find? fun c => all.all fun t => coe c t := by
  intro l
  induction l with
  | nil => rfl
  | cons c rest ih =>
    by_cases h : (all.all fun t => coe c t) = true
    · simp [firstCoercibleCandidate, List.find?, h]
    · simp only [Bool.not_eq_true] at h
      simp [firstCoercibleCandidate, List.find?, h, ih]

/-- C1: `return_type` computes exactly the spec's resolver: discard every
occurrence of the Null type; if no types remain return Null; otherwise return
the first type, in original argument order, into which every remaining
non-null type (including itself) is coercible; with no such candidate, the
planning-time "no common type" error. -/
theorem return_type_eq_resolve_spec (coe : DataType → DataType → Bool)
    (types : List DataType) : return_type coe types = resolve_spec coe types := by
  unfold return_type find_coerced_type resolve_spec
  simp only [firstCoercibleCandidate_eq_find]

/-! ### C2 / C7: the scalar keep-greater -/

/-- C2: for same-typed scalars, `keep_larger_scalar` returns `b` whenever `a`
is null (even when `b` is also null), returns `a` when only `b` is null, and
for non-null operands of a non-nested type returns `a` exactly when `a >= b`
under the type's native total order, so exact ties resolve to the left
operand `a`. -/
theorem keep_larger_scalar_cases (a b : ScalarValue)
    (hdt : a.data_type = b.data_type) :
    (a.is_null = true → keep_larger_scalar a b = .ok b) ∧
    (a.is_null = false → b.is_null = true → keep_larger_scalar a b = .ok a) ∧
    (a.is_null = false → b.is_null = false → a.data_type.is_nested = false →
      keep_larger_scalar a b = .ok (if native_ge a b then a else b) ∧
      (a = b → keep_larger_scalar a b = .ok a)) := by
  refine ⟨?_, ?_, ?_⟩
  · intro h
    simp [keep_larger_scalar, h]
  · intro ha hb
    simp [keep_larger_scalar, ha, hb]
  · intro ha hb hn
    have hmain : keep_larger_scalar a b = .ok (if native_ge a b then a else b) := by
      cases a with
      | int32 va =>
        cases b with
        | int32 vb =>
          cases va with
          | none => simp [ScalarValue.is_null] at ha
          | some x =>
            cases vb with
            | none => simp [ScalarValue.is_null] at hb
            | some y =>
              simp only [keep_larger_scalar, ScalarValue.is_null, ScalarValue.data_type,
                DataType.is_nested, scalarGe, scalarPartialCmp, optCompare,
                cmpOf_isGE, native_ge, Bool.not_false, if_true, if_false,
                Bool.false_eq_true, ite_false, ite_true]
              split_ifs <;> rfl
        | utf8 vb => simp [ScalarValue.data_type] at hdt
        | listInt32 vb => simp [ScalarValue.data_type] at hdt
      | utf8 va =>
        cases b with
        | int32 vb => simp [ScalarValue.data_type] at hdt
        | utf8 vb =>
          cases va with
          | none => simp [ScalarValue.is_null] at ha
          | some x =>
            cases vb with
            | none => simp [ScalarValue.is_null] at hb
            | some y =>
              simp only [keep_larger_scalar, ScalarValue.is_null, ScalarValue.data_type,
                DataType.is_nested, scalarGe, scalarPartialCmp, optCompare,
                cmpOf_isGE, native_ge, Bool.not_false, if_true, if_false,
                Bool.false_eq_true, ite_false, ite_true]
              split_ifs <;> rfl
        | listInt32 vb => simp [ScalarValue.data_type] at hdt
      | listInt32 va => simp [ScalarValue.data_type, DataType.is_nested] at hn
    refine ⟨hmain, ?_⟩
    intro hab
    subst hab
    rw [hmain]
    have : native_ge a a = true := by
      cases a with
      | int32 va =>
        cases va with
        | none => simp [ScalarValue.is_null] at ha
        | some x => simp [native_ge]
      | utf8 va =>
        cases va with
        | none => simp [ScalarValue.is_null] at ha
        | some x => simp [native_ge]
      | listInt32 va => simp [ScalarValue.data_type, DataType.is_nested] at hn
    rw [this]
    simp

theorem keep_larger_scalar_cases_witness :
    keep_larger_scalar (.int32 (some 2)) (.int32 (some 2)) = .ok (.int32 (some 2)) :=
  ((keep_larger_scalar_cases (.int32 (some 2)) (.int32 (some 2)) rfl).2.2
    rfl rfl rfl).2 rfl

/-- C7: a null left operand always loses (`keep_larger_scalar null v = v`), a
null right operand always loses (`keep_larger_scalar v null = v`), and on two
equal operands — null or not, nested or not — the common value is returned
(`keep_larger_scalar v v = v`). -/
theorem keep_larger_scalar_null_loses_and_idem :
    (∀ n v : ScalarValue, n.is_null = true → v.is_null = false →
      keep_larger_scalar n v = .ok v ∧ keep_larger_scalar v n = .ok v) ∧
    (∀ v : ScalarValue, keep_larger_scalar v v = .ok v) := by
  constructor
  · intro n v hn hv
    constructor
    · simp [keep_larger_scalar, hn]
    · simp [keep_larger_scalar, hn, hv]
  · intro v
    match v with
    | .int32 none => rfl
    | .utf8 none => rfl
    | .listInt32 none => rfl
    | .int32 (some x) =>
      simp [keep_larger_scalar, ScalarValue.is_null, ScalarValue.data_type,
        DataType.is_nested, scalarGe, scalarPartialCmp, optCompare_cmpOf_self]
    | .utf8 (some x) =>
      simp [keep_larger_scalar, ScalarValue.is_null, ScalarValue.data_type,
        DataType.is_nested, scalarGe, scalarPartialCmp, optCompare_cmpOf_self]
    | .listInt32 (some xs) =>
      simp [keep_larger_scalar, ScalarValue.is_null, ScalarValue.data_type,
        DataType.is_nested, ScalarValue.to_array, make_comparator,
        Except.bind, optCompare, nestedCmp_self]

theorem keep_larger_scalar_null_loses_and_idem_witness :
    keep_larger_scalar (.int32 none) (.int32 (some 1)) = .ok (.int32 (some 1)) :=
  (keep_larger_scalar_null_loses_and_idem.1 (.int32 none) (.int32 (some 1))
    rfl rfl).1

/-! ### C5: arity checking -/

/-- C5 counterexample: `return_type` performs no arity check — called with the
single argument type `Int32` (fewer than 2) under the reflexive coercibility
predicate, it succeeds with `Int32` instead of returning an arity error. -/
theorem return_type_single_arg_succeeds :
    return_type (fun a b => a == b) [DataType.int32] = .ok DataType.int32 ∧
    ∀ e, return_type (fun a b => a == b) [DataType.int32] ≠ .error e :=
  ⟨rfl, fun _ h => Except.noConfusion h⟩

/-- C5 (amended): `coerce_types` and `invoke` reject fewer than 2 arguments
with the arity error carrying the actual argument count, while `return_type`
performs no arity check and delegates directly to the resolver. -/
theorem greatest_arity_errors :
    (∀ (coe : DataType → DataType → Bool) (ts : List DataType), ts.length < 2 →
      coerce_types coe ts = .error (.arity ts.length)) ∧
    (∀ args : List ColumnarValue, args.length < 2 →
      invoke args = .error (.arity args.length)) ∧
    (∀ (coe : DataType → DataType → Bool) (ts : List DataType),
      return_type coe ts = find_coerced_type coe ts) := by
  refine ⟨?_, ?_, ?_⟩
  · intro coe ts h
    simp [coerce_types, h]
  · intro args h
    simp [invoke, h]
  · intro coe ts
    rfl

theorem greatest_arity_errors_witness :
    coerce_types (fun _ _ => true) [] = .error (.arity 0) ∧
    invoke [ColumnarValue.Scalar (.int32 (some 1))] = .error (.arity 1) :=
  ⟨greatest_arity_errors.1 (fun _ _ => true) [] (by decide),
   greatest_arity_errors.2.1 [ColumnarValue.Scalar (.int32 (some 1))] (by decide)⟩

/-! ### C6: the concrete column/scalar scenario -/

/-- C6: invoking with the Int32 column `[1, 8, 3, null]` and the Int32 scalar
`5` returns the Int32 column `[5, 8, 5, 5]`. -/
theorem invoke_int32_column_scalar_example :
    invoke [ColumnarValue.Array (.int32 [some 1, some 8, some 3, none]),
            ColumnarValue.Scalar (.int32 (some 5))]
      = .ok (.Array (.int32 [some 5, some 8, some 5, some 5])) := rfl

/-! ### C3: the keep-greater mask and the merge -/

lemma getD_map_range {α : Type} (f : Nat → α) (n i : Nat) (d : α) (h : i < n) :
    ((List.range n).map f).getD i d = f i := by
  have hlen : i < ((List.range n).map f).length := by simpa using h
  rw [List.getD_eq_getElem _ _ hlen]
  simp

/-- Spec-side row ordering of two same-typed scalar entries under the
fragment's constant sort options (ascending, nulls first): null below every
present value, present values in their native order. -/
def row_ordering (a b : ScalarValue) : Ordering :=
  (scalarPartialCmp a b).getD .eq

/-- C3: for same-typed columns, the keep-greater mask has length
`min (len lhs) (len rhs)` and its entry `i` is true iff the row ordering of
`(lhs[i], rhs[i])` under ascending, nulls-first comparison is
greater-or-equal; the merge yields a fresh column of the mask's length whose
row `i` is `lhs[i]` where the mask holds and `rhs[i]` otherwise (the
embedding is pure, so neither input is mutated). -/
theorem get_larger_keep_larger_spec (lhs rhs : Arr)
    (hdt : lhs.data_type = rhs.data_type) :
    ∃ (mask : List Bool) (merged : Arr),
      get_larger lhs rhs = .ok mask ∧
      keep_larger lhs rhs = .ok merged ∧
      mask.length = min lhs.len rhs.len ∧
      (∀ i, i < mask.length →
        mask.getD i false = (row_ordering (lhs.entry i) (rhs.entry i)).isGE) ∧
      merged.len = mask.length ∧
      (∀ i, i < mask.length →
        merged.entry i = if mask.getD i false then lhs.entry i else rhs.entry i) := by
  cases lhs with
  | int32 a =>
    cases rhs with
    | int32 b =>
      refine ⟨_, _, rfl, rfl, ?_, ?_, ?_, ?_⟩
      · simp [Arr.len]
      · intro i hi
        simp only [List.length_map, List.length_range, Arr.len] at hi ⊢
        rw [getD_map_range _ _ _ _ hi]
        simp [row_ordering, scalarPartialCmp, Arr.entry]
      · simp [Arr.len, zipList]
      · intro i hi
        simp only [List.length_map, List.length_range, Arr.len] at hi ⊢
        simp only [Arr.entry, zipList, List.length_map, List.length_range]
        rw [getD_map_range _ _ _ _ hi, getD_map_range _ _ _ _ hi]
        split <;> rfl
    | utf8 b => simp [Arr.data_type] at hdt
    | listInt32 b => simp [Arr.data_type] at hdt
  | utf8 a =>
    cases rhs with
    | int32 b => simp [Arr.data_type] at hdt
    | utf8 b =>
      refine ⟨_, _, rfl, rfl, ?_, ?_, ?_, ?_⟩
      · simp [Arr.len]
      · intro i hi
        simp only [List.length_map, List.length_range, Arr.len] at hi ⊢
        rw [getD_map_range _ _ _ _ hi]
        simp [row_ordering, scalarPartialCmp, Arr.entry]
      · simp [Arr.len, zipList]
      · intro i hi
        simp only [List.length_map, List.length_range, Arr.len] at hi ⊢
        simp only [Arr.entry, zipList, List.length_map, List.length_range]
        rw [getD_map_range _ _ _ _ hi, getD_map_range _ _ _ _ hi]
        split <;> rfl
    | listInt32 b => simp [Arr.data_type] at hdt
  | listInt32 a =>
    cases rhs with
    | int32 b => simp [Arr.data_type] at hdt
    | utf8 b => simp [Arr.data_type] at hdt
    | listInt32 b =>
      refine ⟨_, _, rfl, rfl, ?_, ?_, ?_, ?_⟩
      · simp [Arr.len]
      · intro i hi
        simp only [List.length_map, List.length_range, Arr.len] at hi ⊢
        rw [getD_map_range _ _ _ _ hi]
        simp [row_ordering, scalarPartialCmp, Arr.entry]
      · simp [Arr.len, zipList]
      · intro i hi
        simp only [List.length_map, List.length_range, Arr.len] at hi ⊢
        simp only [Arr.entry, zipList, List.length_map, List.length_range]
        rw [getD_map_range _ _ _ _ hi, getD_map_range _ _ _ _ hi]
        split <;> rfl

theorem get_larger_keep_larger_spec_witness :
    ∃ (mask : List Bool) (merged : Arr),
      get_larger (.int32 [some 1, some 8]) (.int32 [some 4, none]) = .ok mask ∧
      keep_larger (.int32 [some 1, some 8]) (.int32 [some 4, none]) = .ok merged ∧
      mask.length = min (Arr.len (.int32 [some 1, some 8]))
        (Arr.len (.int32 [some 4, none])) ∧
      (∀ i, i < mask.length →
        mask.getD i false = (row_ordering (Arr.entry (.int32 [some 1, some 8]) i)
          (Arr.entry (.int32 [some 4, none]) i)).isGE) ∧
      merged.len = mask.length ∧
      (∀ i, i < mask.length →
        merged.entry i = if mask.getD i false
          then Arr.entry (.int32 [some 1, some 8]) i
          else Arr.entry (.int32 [some 4, none]) i) :=
  get_larger_keep_larger_spec (.int32 [some 1, some 8]) (.int32 [some 4, none]) rfl

/-! ### Bridging the partition to direct filterMaps -/

@[simp] lemma extractScalar_scalar (s : ScalarValue) :
    extractScalar (.Scalar s) = some s := rfl

@[simp] lemma extractScalar_array (a : Arr) :
    extractScalar (.Array a) = none := rfl

@[simp] lemma extractArray_scalar (s : ScalarValue) :
    extractArray (.Scalar s) = none := rfl

@[simp] lemma extractArray_array (a : Arr) :
    extractArray (.Array a) = some a := rfl

lemma filterMap_extractScalar_filter (args : List ColumnarValue) :
    (args.filter fun x => (extractScalar x).isSome).filterMap extractScalar
      = args.filterMap extractScalar := by
  induction args with
  | nil => rfl
  | cons x rest ih =>
    cases x with
    | Scalar s => simp [List.filter_cons, List.filterMap_cons, ih]
    | Array a => simp [List.filter_cons, List.filterMap_cons, ih]

lemma filterMap_extractArray_filter (args : List ColumnarValue) :
    (args.filter (not ∘ fun x => (extractScalar x).isSome)).filterMap extractArray
      = args.filterMap extractArray := by
  induction args with
  | nil => rfl
  | cons x rest ih =>
    cases x with
    | Scalar s => simp [List.filter_cons, List.filterMap_cons, ih]
    | Array a => simp [List.filter_cons, List.filterMap_cons, ih]

/-- `invoke` on an argument list of sufficient arity is the core body applied
to the scalar group and the array group, each in original relative order. -/
lemma invoke_eq_core (args : List ColumnarValue) (h2 : 2 ≤ args.length) :
    invoke args =
      invokeCore (args.filterMap extractScalar) (args.filterMap extractArray) := by
  unfold invoke
  rw [if_neg (by omega), List.partition_eq_filter_filter]
  show invokeCore
      ((args.filter fun x => (extractScalar x).isSome).filterMap extractScalar)
      ((args.filter (not ∘ fun x => (extractScalar x).isSome)).filterMap extractArray)
    = invokeCore (args.filterMap extractScalar) (args.filterMap extractArray)
  rw [filterMap_extractScalar_filter, filterMap_extractArray_filter]

/-! ### Error classification of the scalar fold (for C9) -/

lemma make_comparator_error (l r : Arr) (e : RunError)
    (h : make_comparator l r = .error e) : ∃ m, e = .primitive m := by
  cases l <;> cases r <;> simp [make_comparator] at h <;> exact ⟨_, h.symm⟩

lemma keep_larger_scalar_error (a b : ScalarValue) (e : RunError)
    (h : keep_larger_scalar a b = .error e) : ∃ m, e = .primitive m := by
  unfold keep_larger_scalar at h
  by_cases h1 : a.is_null = true
  · rw [if_pos h1] at h
    cases h
  · rw [if_neg h1] at h
    by_cases h2 : b.is_null = true
    · rw [if_pos h2] at h
      cases h
    · rw [if_neg h2] at h
      by_cases h3 : (!a.data_type.is_nested) = true
      · rw [if_pos h3] at h
        by_cases h4 : scalarGe a b = true
        · rw [if_pos h4] at h
          cases h
        · rw [if_neg h4] at h
          cases h
      · rw [if_neg h3] at h
        cases hmc : make_comparator a.to_array b.to_array with
        | error e2 =>
          rw [hmc] at h
          have h5 : (Except.error e2 : Except RunError ScalarValue) = Except.error e := h
          cases h5
          exact make_comparator_error _ _ _ hmc
        | ok f =>
          rw [hmc] at h
          have h5 : (if (f 0 0).isGE = true then pure a else pure b :
              Except RunError ScalarValue) = Except.error e := h
          by_cases hge : (f 0 0).isGE = true
          · rw [if_pos hge] at h5
            cases h5
          · rw [if_neg hge] at h5
            cases h5

lemma foldlM_keep_larger_scalar_error (l : List ScalarValue) (s : ScalarValue)
    (e : RunError) (h : l.foldlM keep_larger_scalar s = .error e) :
    ∃ m, e = .primitive m := by
  induction l generalizing s with
  | nil => cases h
  | cons x t ih =>
    rw [List.foldlM_cons] at h
    cases hk : keep_larger_scalar s x with
    | error e2 =>
      rw [hk] at h
      cases h
      exact keep_larger_scalar_error s x e hk
    | ok s2 =>
      rw [hk] at h
      exact ih s2 h

/-- C9: with at least 2 inputs that are all scalars, the all-scalar
short-circuit branch always has a merged scalar available: the `unwrap`s can
never panic (`RunError.crash` is unreachable), and the call returns the
merged scalar as a scalar result (or propagates a kernel error from the
fold, never a crash). -/
theorem invoke_all_scalars_no_crash (args : List ColumnarValue)
    (h2 : 2 ≤ args.length) (hs : ∀ x ∈ args, ∃ s, x = .Scalar s) :
    (∃ s, invoke args = .ok (.Scalar s)) ∨
    (∃ m, invoke args = .error (.primitive m)) := by
  rw [invoke_eq_core args h2]
  have hA : args.filterMap extractArray = [] := by
    rw [List.filterMap_eq_nil_iff]
    intro x hx
    obtain ⟨s, rfl⟩ := hs x hx
    rfl
  obtain ⟨x, hx⟩ : ∃ x, x ∈ args := by
    cases args with
    | nil => simp at h2
    | cons a t => exact ⟨a, List.mem_cons_self a t⟩
  have hSne : args.filterMap extractScalar ≠ [] := by
    intro hnil
    rw [List.filterMap_eq_nil_iff] at hnil
    obtain ⟨s, rfl⟩ := hs x hx
    have := hnil _ hx
    simp [extractScalar] at this
  rw [hA]
  cases hScal : args.filterMap extractScalar with
  | nil => exact absurd hScal hSne
  | cons s rest =>
    cases hf : rest.foldlM keep_larger_scalar s with
    | error e =>
      obtain ⟨m, rfl⟩ := foldlM_keep_larger_scalar_error rest s e hf
      right
      exact ⟨m, by simp [invokeCore, hf, Except.map]⟩
    | ok v =>
      left
      exact ⟨v, by simp [invokeCore, hf, Except.map]⟩

theorem invoke_all_scalars_no_crash_witness :
    (∃ s, invoke [ColumnarValue.Scalar (.int32 (some 1)),
                  ColumnarValue.Scalar (.int32 none)] = .ok (.Scalar s)) ∨
    (∃ m, invoke [ColumnarValue.Scalar (.int32 (some 1)),
                  ColumnarValue.Scalar (.int32 none)] = .error (.primitive m)) :=
  invoke_all_scalars_no_crash
    [ColumnarValue.Scalar (.int32 (some 1)), ColumnarValue.Scalar (.int32 none)]
    (by decide)
    (by
      intro x hx
      rcases List.mem_cons.mp hx with rfl | hx2
      · exact ⟨_, rfl⟩
      · rcases List.mem_cons.mp hx2 with rfl | hx3
        · exact ⟨_, rfl⟩
        · cases hx3)

/-! ### C10: shape of a successful result -/

lemma zip_ok_len (mask : List Bool) (l r : Arr) (out : Arr)
    (h : zip mask l r = .ok out) : out.len = mask.length := by
  cases l <;> cases r <;> simp [zip] at h <;>
    (rw [← h]; simp [Arr.len, zipList])

lemma get_larger_ok_len (l r : Arr) (mask : List Bool)
    (h : get_larger l r = .ok mask) : mask.length = min l.len r.len := by
  unfold get_larger at h
  cases hmc : make_comparator l r with
  | error e =>
    rw [hmc] at h
    have h2 : (Except.error e : Except RunError (List Bool)) = Except.ok mask := h
    cases h2
  | ok f =>
    rw [hmc] at h
    have h2 : (Except.ok ((List.range (min l.len r.len)).map fun i => (f i i).isGE) :
        Except RunError (List Bool)) = Except.ok mask := h
    cases h2
    simp

lemma keep_larger_ok_len (l r : Arr) (out : Arr)
    (h : keep_larger l r = .ok out) : out.len = min l.len r.len := by
  unfold keep_larger at h
  cases hg : get_larger l r with
  | error e =>
    rw [hg] at h
    have h2 : (Except.error e : Except RunError Arr) = Except.ok out := h
    cases h2
  | ok mask =>
    rw [hg] at h
    have h2 : zip mask l r = Except.ok out := h
    rw [zip_ok_len mask l r out h2, get_larger_ok_len l r mask hg]

lemma foldlM_keep_larger_ok_len (cs : List Arr) :
    ∀ (seed out : Arr), cs.foldlM keep_larger seed = .ok out →
      out.len = cs.foldl (fun n x => min n x.len) seed.len := by
  induction cs with
  | nil =>
    intro seed out h
    cases h
    rfl
  | cons c t ih =>
    intro seed out h
    rw [List.foldlM_cons] at h
    cases hk : keep_larger seed c with
    | error e =>
      rw [hk] at h
      have h2 : (Except.error e : Except RunError Arr) = Except.ok out := h
      cases h2
    | ok m =>
      rw [hk] at h
      have h2 : t.foldlM keep_larger m = Except.ok out := h
      rw [List.foldl_cons, ← keep_larger_ok_len seed c m hk]
      exact ih m out h2

lemma to_array_of_size_len (s : ScalarValue) (n : Nat) :
    (s.to_array_of_size n).len = n := by
  cases s <;> simp [ScalarValue.to_array_of_size, Arr.len]

/-- C10: a successful `invoke` with at least 2 inputs yields a scalar exactly
when every input was a scalar; otherwise it yields a column whose length is
the minimum of the lengths of all column inputs (the broadcast merged scalar
is created at the first column's length, so it never grows the result beyond
that minimum). -/
theorem invoke_result_shape (args : List ColumnarValue) (r : ColumnarValue)
    (h : invoke args = .ok r) :
    ((∃ s, r = .Scalar s) ↔ ∀ x ∈ args, ∃ s, x = .Scalar s) ∧
    (∀ a, r = .Array a → ∃ c cs, args.filterMap extractArray = c :: cs ∧
      a.len = cs.foldl (fun n x => min n x.len) c.len) := by
  have h2 : ¬ args.length < 2 := by
    intro hlt
    rw [invoke, if_pos hlt] at h
    cases h
  rw [invoke_eq_core args (by omega)] at h
  cases hA : args.filterMap extractArray with
  | nil =>
    rw [hA] at h
    have hallscalar : ∀ x ∈ args, ∃ s, x = ColumnarValue.Scalar s := by
      intro x hx
      rw [List.filterMap_eq_nil_iff] at hA
      cases x with
      | Scalar s => exact ⟨s, rfl⟩
      | Array a =>
        have := hA _ hx
        simp at this
    have hrs : ∃ s, r = .Scalar s := by
      cases hScal : args.filterMap extractScalar with
      | nil =>
        rw [hScal] at h
        have h3 : (Except.error RunError.crash : Except RunError ColumnarValue)
            = Except.ok r := h
        cases h3
      | cons s rest =>
        rw [hScal] at h
        cases hf : rest.foldlM keep_larger_scalar s with
        | error e =>
          rw [invokeCore, hf] at h
          have h3 : (Except.error e : Except RunError ColumnarValue) = Except.ok r := h
          cases h3
        | ok v =>
          rw [invokeCore, hf] at h
          have h3 : (Except.ok (ColumnarValue.Scalar v) :
              Except RunError ColumnarValue) = Except.ok r := h
          cases h3
          exact ⟨v, rfl⟩
    constructor
    · exact ⟨fun _ => hallscalar, fun _ => hrs⟩
    · intro a ha
      obtain ⟨s, rfl⟩ := hrs
      cases ha
  | cons c cs =>
    rw [hA] at h
    have hnotall : ¬ ∀ x ∈ args, ∃ s, x = ColumnarValue.Scalar s := by
      intro hall
      have hc : c ∈ args.filterMap extractArray := by
        rw [hA]
        exact List.mem_cons_self c cs
      rw [List.mem_filterMap] at hc
      obtain ⟨x, hx, hxc⟩ := hc
      obtain ⟨s, rfl⟩ := hall x hx
      simp at hxc
    -- dissect the run
    cases hScal : args.filterMap extractScalar with
    | nil =>
      rw [hScal] at h
      change (match cs.foldlM keep_larger c with
        | .error e => .error e
        | .ok largest => .ok (.Array largest)) = Except.ok r at h
      cases hf : cs.foldlM keep_larger c with
      | error e =>
        rw [hf] at h
        cases h
      | ok largest =>
        rw [hf] at h
        cases h
        refine ⟨?_, ?_⟩
        · constructor
          · intro hs
            obtain ⟨s, hs⟩ := hs
            cases hs
          · intro hall
            exact absurd hall hnotall
        · intro a ha
          cases ha
          exact ⟨c, cs, rfl, foldlM_keep_larger_ok_len cs c largest hf⟩
    | cons s rest =>
      rw [hScal] at h
      cases hfs : rest.foldlM keep_larger_scalar s with
      | error e =>
        rw [invokeCore, hfs] at h
        have h3 : (Except.error e : Except RunError ColumnarValue) = Except.ok r := h
        cases h3
      | ok m =>
        rw [invokeCore, hfs] at h
        change (match keep_larger c (m.to_array_of_size c.len) with
          | .error e => .error e
          | .ok seed =>
            match cs.foldlM keep_larger seed with
            | .error e => .error e
            | .ok largest => .ok (.Array largest)) = Except.ok r at h
        cases hseed : keep_larger c (m.to_array_of_size c.len) with
        | error e =>
          rw [hseed] at h
          cases h
        | ok seed =>
          rw [hseed] at h
          change (match cs.foldlM keep_larger seed with
            | .error e => .error e
            | .ok largest => .ok (.Array largest)) = Except.ok r at h
          cases hf : cs.foldlM keep_larger seed with
          | error e =>
            rw [hf] at h
            cases h
          | ok largest =>
            rw [hf] at h
            cases h
            have hseedlen : seed.len = c.len := by
              rw [keep_larger_ok_len c (m.to_array_of_size c.len) seed hseed,
                to_array_of_size_len, min_self]
            refine ⟨?_, ?_⟩
            · constructor
              · intro hs
                obtain ⟨s2, hs⟩ := hs
                cases hs
              · intro hall
                exact absurd hall hnotall
            · intro a ha
              cases ha
              refine ⟨c, cs, rfl, ?_⟩
              rw [foldlM_keep_larger_ok_len cs seed largest hf, hseedlen]

theorem invoke_result_shape_witness :
    ((∃ s, ColumnarValue.Array (.int32 [some 3]) = ColumnarValue.Scalar s) ↔
      ∀ x ∈ [ColumnarValue.Array (.int32 [some 1, some 2]),
             ColumnarValue.Array (.int32 [some 3])], ∃ s, x = ColumnarValue.Scalar s) ∧
    (∀ a, ColumnarValue.Array (.int32 [some 3]) = ColumnarValue.Array a →
      ∃ c cs, List.filterMap extractArray
          [ColumnarValue.Array (.int32 [some 1, some 2]),
           ColumnarValue.Array (.int32 [some 3])] = c :: cs ∧
        a.len = cs.foldl (fun n x => min n x.len) c.len) :=
  invoke_result_shape
    [ColumnarValue.Array (.int32 [some 1, some 2]),
     ColumnarValue.Array (.int32 [some 3])]
    (ColumnarValue.Array (.int32 [some 3])) rfl

/-! ### C4: the orchestration recipe -/

/-- The spec's §4.4 step 3, written from the spec's words: fold the scalar
group left-to-right through the scalar keep-greater, starting from the first
scalar, producing at most one merged scalar. -/
def spec_collapse (ss : List ScalarValue) : Except RunError (Option ScalarValue) :=
  match ss with
  | [] => .ok none
  | s :: rest => Except.map some (rest.foldlM keep_larger_scalar s)

/-- The spec's §4.3 combination `merge(lhs, rhs, keep_greater_mask(lhs, rhs))`,
written from the spec's words. -/
def spec_combine (lhs rhs : Arr) : Except RunError Arr := do
  let mask ← get_larger lhs rhs
  zip mask lhs rhs

/-- The spec's §4.4 step 5, written from the spec's words: when a merged
scalar exists, broadcast it to the first column's length and combine it with
the first column; otherwise the first column itself seeds the fold. -/
def spec_seed (m : Option ScalarValue) (c : Arr) : Except RunError Arr :=
  match m with
  | some s => spec_combine c (s.to_array_of_size c.len)
  | none => .ok c

/-- The spec's §4.4 step 6, written from the spec's words: fold the remaining
columns, in original relative order, through the mask-and-merge combination. -/
def spec_fold_columns (seed : Arr) (cs : List Arr) : Except RunError Arr :=
  cs.foldlM spec_combine seed

lemma spec_combine_eq_keep_larger : spec_combine = keep_larger := rfl

/-- C4: with at least 2 inputs of which at least one is a column, `invoke`
follows exactly the spec's recipe: collapse the scalar group left-to-right
starting from the first scalar; seed the running column from the first column
(combined with the broadcast merged scalar when one exists); then fold the
remaining columns in their original relative order through mask-and-merge. -/
theorem invoke_eq_spec_recipe (args : List ColumnarValue) (h2 : 2 ≤ args.length)
    (c : Arr) (cs : List Arr) (hA : args.filterMap extractArray = c :: cs) :
    invoke args = (do
      let m ← spec_collapse (args.filterMap extractScalar)
      let seed ← spec_seed m c
      let out ← spec_fold_columns seed cs
      pure (ColumnarValue.Array out)) := by
  rw [invoke_eq_core args h2, hA]
  cases hS : args.filterMap extractScalar with
  | nil =>
    cases hf : cs.foldlM keep_larger c with
    | error e =>
      have hL : invokeCore [] (c :: cs) = .error e := by
        simp [invokeCore, hf]
      have hR : (do
          let m ← spec_collapse ([] : List ScalarValue)
          let seed ← spec_seed m c
          let out ← spec_fold_columns seed cs
          pure (ColumnarValue.Array out) : Except RunError ColumnarValue) = .error e := by
        simp [spec_collapse, spec_seed, spec_fold_columns,
          spec_combine_eq_keep_larger, hf, Bind.bind, Except.bind,
          Functor.map, Except.map, pure, Except.pure]
      rw [hL, hR]
    | ok largest =>
      have hL : invokeCore [] (c :: cs) = .ok (.Array largest) := by
        simp [invokeCore, hf]
      have hR : (do
          let m ← spec_collapse ([] : List ScalarValue)
          let seed ← spec_seed m c
          let out ← spec_fold_columns seed cs
          pure (ColumnarValue.Array out) : Except RunError ColumnarValue)
          = .ok (.Array largest) := by
        simp [spec_collapse, spec_seed, spec_fold_columns,
          spec_combine_eq_keep_larger, hf, Bind.bind, Except.bind,
          Functor.map, Except.map, pure, Except.pure]
      rw [hL, hR]
  | cons s rest =>
    cases hm : rest.foldlM keep_larger_scalar s with
    | error e =>
      have hL : invokeCore (s :: rest) (c :: cs) = .error e := by
        simp [invokeCore, hm, Except.map]
      have hR : (do
          let m ← spec_collapse (s :: rest)
          let seed ← spec_seed m c
          let out ← spec_fold_columns seed cs
          pure (ColumnarValue.Array out) : Except RunError ColumnarValue) = .error e := by
        simp [spec_collapse, hm, Except.map, Bind.bind, Except.bind,
          Functor.map, pure, Except.pure]
      rw [hL, hR]
    | ok m =>
      cases hseed : keep_larger c (m.to_array_of_size c.len) with
      | error e =>
        have hL : invokeCore (s :: rest) (c :: cs) = .error e := by
          simp [invokeCore, hm, Except.map, hseed]
        have hR : (do
            let m2 ← spec_collapse (s :: rest)
            let seed ← spec_seed m2 c
            let out ← spec_fold_columns seed cs
            pure (ColumnarValue.Array out) : Except RunError ColumnarValue) = .error e := by
          simp [spec_collapse, hm, Except.map, spec_seed,
            spec_combine_eq_keep_larger, hseed, Bind.bind, Except.bind,
            Functor.map, pure, Except.pure]
        rw [hL, hR]
      | ok seed =>
        cases hf : cs.foldlM keep_larger seed with
        | error e =>
          have hL : invokeCore (s :: rest) (c :: cs) = .error e := by
            simp [invokeCore, hm, Except.map, hseed, hf]
          have hR : (do
              let m2 ← spec_collapse (s :: rest)
              let seed2 ← spec_seed m2 c
              let out ← spec_fold_columns seed2 cs
              pure (ColumnarValue.Array out) : Except RunError ColumnarValue)
              = .error e := by
            simp [spec_collapse, hm, Except.map, spec_seed, spec_fold_columns,
              spec_combine_eq_keep_larger, hseed, hf, Bind.bind, Except.bind,
              Functor.map, pure, Except.pure]
          rw [hL, hR]
        | ok largest =>
          have hL : invokeCore (s :: rest) (c :: cs) = .ok (.Array largest) := by
            simp [invokeCore, hm, Except.map, hseed, hf]
          have hR : (do
              let m2 ← spec_collapse (s :: rest)
              let seed2 ← spec_seed m2 c
              let out ← spec_fold_columns seed2 cs
              pure (ColumnarValue.Array out) : Except RunError ColumnarValue)
              = .ok (.Array largest) := by
            simp [spec_collapse, hm, Except.map, spec_seed, spec_fold_columns,
              spec_combine_eq_keep_larger, hseed, hf, Bind.bind, Except.bind,
              Functor.map, pure, Except.pure]
          rw [hL, hR]

theorem invoke_eq_spec_recipe_witness :
    invoke [ColumnarValue.Scalar (.int32 (some 5)),
            ColumnarValue.Array (.int32 [some 1, some 8])]
      = (do
          let m ← spec_collapse (List.filterMap extractScalar
            [ColumnarValue.Scalar (.int32 (some 5)),
             ColumnarValue.Array (.int32 [some 1, some 8])])
          let seed ← spec_seed m (.int32 [some 1, some 8])
          let out ← spec_fold_columns seed []
          pure (ColumnarValue.Array out)) :=
  invoke_eq_spec_recipe
    [ColumnarValue.Scalar (.int32 (some 5)),
     ColumnarValue.Array (.int32 [some 1, some 8])]
    (by decide) (.int32 [some 1, some 8]) [] rfl

/-! ### C8: invariance under scalar/column redistribution

The development below gives `invoke` a per-row semantics for arguments of one
common non-nested type: every row of the result is the fold of the
null-minimizing maximum over that row's values, regardless of which
arguments were scalars and which were columns. -/

/-- The null-minimizing maximum of two nullable values: keep the left operand
exactly when the ascending nulls-first comparison is greater-or-equal. -/
def omaxG {α : Type} [LinearOrder α] (a b : Option α) : Option α :=
  if (optCompare cmpOf a b).isGE then a else b

lemma omaxG_none_left {α : Type} [LinearOrder α] (b : Option α) :
    omaxG none b = b := by
  cases b <;> simp [omaxG, optCompare, Ordering.isGE]

lemma omaxG_none_right {α : Type} [LinearOrder α] (a : Option α) :
    omaxG a none = a := by
  cases a <;> simp [omaxG, optCompare, Ordering.isGE]

lemma omaxG_some_some {α : Type} [LinearOrder α] (x y : α) :
    omaxG (some x) (some y) = some (max x y) := by
  simp only [omaxG, optCompare, cmpOf_isGE]
  split_ifs with h
  · simp only [decide_eq_true_eq] at h
    rw [max_eq_left h]
  · simp only [decide_eq_true_eq] at h
    rw [max_eq_right (le_of_not_le h)]

lemma omaxG_comm {α : Type} [LinearOrder α] (a b : Option α) :
    omaxG a b = omaxG b a := by
  cases a <;> cases b <;>
    simp [omaxG_none_left, omaxG_none_right, omaxG_some_some, max_comm]

lemma omaxG_assoc {α : Type} [LinearOrder α] (a b c : Option α) :
    omaxG (omaxG a b) c = omaxG a (omaxG b c) := by
  cases a <;> cases b <;> cases c <;>
    simp [omaxG_none_left, omaxG_none_right, omaxG_some_some, max_assoc]

/-- The non-nested element kinds of the embedding: the integer primitive and
the string type. -/
inductive PrimKind
  | pint
  | pstr

/-- The carrier of each non-nested kind. -/
@[reducible] def PrimKind.Base : PrimKind → Type
  | .pint => Int
  | .pstr => String

/-- The native linear order of each non-nested kind. -/
@[reducible] def PrimKind.ord : (k : PrimKind) → LinearOrder k.Base
  | .pint => inferInstance
  | .pstr => inferInstance

/-- The null-minimizing maximum at a given kind. -/
@[reducible] def PrimKind.omax (k : PrimKind) : Option k.Base → Option k.Base → Option k.Base :=
  @omaxG k.Base k.ord

/-- Build the scalar of a kind from a nullable base value. -/
def PrimKind.mkScalar : (k : PrimKind) → Option k.Base → ScalarValue
  | .pint, v => .int32 v
  | .pstr, v => .utf8 v

/-- Build the array of a kind from nullable base values. -/
def PrimKind.mkArr : (k : PrimKind) → List (Option k.Base) → Arr
  | .pint, vs => .int32 vs
  | .pstr, vs => .utf8 vs

/-- The value an argument contributes to row `i`: a scalar contributes its
value to every row, a column its element at `i`. -/
def rowValue (k : PrimKind) (i : Nat) : ColumnarValue → Option k.Base
  | .Scalar s =>
    match k, s with
    | .pint, .int32 v => v
    | .pstr, .utf8 v => v
    | _, _ => none
  | .Array a =>
    match k, a with
    | .pint, .int32 vs => vs.getD i none
    | .pstr, .utf8 vs => vs.getD i none
    | _, _ => none

/-- An argument of kind `k`: a `k`-typed scalar or a `k`-typed column with
`L` rows. -/
def KInput (k : PrimKind) (L : Nat) (x : ColumnarValue) : Prop :=
  (∃ v, x = ColumnarValue.Scalar (k.mkScalar v)) ∨
  (∃ vs, vs.length = L ∧ x = ColumnarValue.Array (k.mkArr vs))

lemma rowValue_mkScalar (k : PrimKind) (i : Nat) (v : Option k.Base) :
    rowValue k i (.Scalar (k.mkScalar v)) = v := by
  cases k <;> rfl

lemma rowValue_mkArr (k : PrimKind) (i : Nat) (vs : List (Option k.Base)) :
    rowValue k i (.Array (k.mkArr vs)) = vs.getD i none := by
  cases k <;> rfl

lemma mkArr_len (k : PrimKind) (vs : List (Option k.Base)) :
    (k.mkArr vs).len = vs.length := by
  cases k <;> rfl

lemma mkScalar_to_array_of_size (k : PrimKind) (v : Option k.Base) (n : Nat) :
    (k.mkScalar v).to_array_of_size n = k.mkArr (List.replicate n v) := by
  cases k <;> rfl

lemma getD_replicate_lt {α : Type} (m d : α) (n i : Nat) (h : i < n) :
    (List.replicate n m).getD i d = m := by
  rw [List.getD_eq_getElem _ _ (by simpa using h)]
  simp

lemma map_range_congr {α : Type} (f g : Nat → α) (n : Nat)
    (h : ∀ i, i < n → f i = g i) :
    (List.range n).map f = (List.range n).map g := by
  apply List.ext_getElem
  · simp
  · intro m h1 h2
    simp only [List.getElem_map, List.getElem_range]
    exact h m (by simpa using h1)

lemma mkScalar_keep_larger (k : PrimKind) (a b : Option k.Base) :
    keep_larger_scalar (k.mkScalar a) (k.mkScalar b)
      = .ok (k.mkScalar (k.omax a b)) := by
  cases k with
  | pint =>
    cases a with
    | none =>
      show keep_larger_scalar (.int32 none) (.int32 b) = .ok (.int32 (omaxG none b))
      rw [omaxG_none_left]
      cases b <;> rfl
    | some x =>
      cases b with
      | none =>
        show keep_larger_scalar (.int32 (some x)) (.int32 none)
          = .ok (.int32 (omaxG (some x) none))
        rw [omaxG_none_right]
        rfl
      | some y =>
        show (if (cmpOf x y).isGE = true
            then (Except.ok (ScalarValue.int32 (some x)) : Except RunError ScalarValue)
            else Except.ok (ScalarValue.int32 (some y)))
          = .ok (.int32 (omaxG (some x) (some y)))
        show _ = Except.ok (ScalarValue.int32
          (if (optCompare cmpOf (some x) (some y)).isGE = true then some x else some y))
        show _ = Except.ok (ScalarValue.int32
          (if (cmpOf x y).isGE = true then some x else some y))
        split_ifs <;> rfl
  | pstr =>
    cases a with
    | none =>
      show keep_larger_scalar (.utf8 none) (.utf8 b) = .ok (.utf8 (omaxG none b))
      rw [omaxG_none_left]
      cases b <;> rfl
    | some x =>
      cases b with
      | none =>
        show keep_larger_scalar (.utf8 (some x)) (.utf8 none)
          = .ok (.utf8 (omaxG (some x) none))
        rw [omaxG_none_right]
        rfl
      | some y =>
        show (if (cmpOf x y).isGE = true
            then (Except.ok (ScalarValue.utf8 (some x)) : Except RunError ScalarValue)
            else Except.ok (ScalarValue.utf8 (some y)))
          = .ok (.utf8 (omaxG (some x) (some y)))
        show _ = Except.ok (ScalarValue.utf8
          (if (cmpOf x y).isGE = true then some x else some y))
        split_ifs <;> rfl

lemma zipList_mask_omax {α : Type} [LinearOrder α] (a b : List (Option α)) :
    zipList ((List.range (min a.length b.length)).map
        fun i => (optCompare cmpOf (a.getD i none) (b.getD i none)).isGE) a b none
      = (List.range (min a.length b.length)).map
          fun i => omaxG (a.getD i none) (b.getD i none) := by
  unfold zipList
  apply List.ext_getElem
  · simp
  · intro n h1 h2
    simp only [List.length_map, List.length_range] at h1 h2
    simp only [List.getElem_map, List.getElem_range]
    rw [getD_map_range _ _ _ _ (by simpa using h1)]
    rfl

lemma mkArr_keep_larger (k : PrimKind) (a b : List (Option k.Base)) :
    keep_larger (k.mkArr a) (k.mkArr b)
      = .ok (k.mkArr ((List.range (min a.length b.length)).map
          fun i => k.omax (a.getD i none) (b.getD i none))) := by
  cases k with
  | pint =>
    show Except.ok (Arr.int32 (zipList ((List.range (min a.length b.length)).map
        fun i => (optCompare cmpOf (a.getD i none) (b.getD i none)).isGE) a b none))
      = Except.ok (Arr.int32 ((List.range (min a.length b.length)).map
          fun i => omaxG (a.getD i none) (b.getD i none)))
    rw [zipList_mask_omax]
  | pstr =>
    show Except.ok (Arr.utf8 (zipList ((List.range (min a.length b.length)).map
        fun i => (optCompare cmpOf (a.getD i none) (b.getD i none)).isGE) a b none))
      = Except.ok (Arr.utf8 ((List.range (min a.length b.length)).map
          fun i => omaxG (a.getD i none) (b.getD i none)))
    rw [zipList_mask_omax]

lemma foldlM_mkScalar (k : PrimKind) (ss : List (Option k.Base)) :
    ∀ s0 : Option k.Base,
      (ss.map k.mkScalar).foldlM keep_larger_scalar (k.mkScalar s0)
        = .ok (k.mkScalar (ss.foldl k.omax s0)) := by
  induction ss with
  | nil => intro s0; rfl
  | cons v t ih =>
    intro s0
    rw [List.map_cons, List.foldlM_cons, mkScalar_keep_larger]
    show (t.map k.mkScalar).foldlM keep_larger_scalar (k.mkScalar (k.omax s0 v))
      = .ok (k.mkScalar ((v :: t).foldl k.omax s0))
    rw [ih (k.omax s0 v)]
    rfl

lemma foldlM_mkArr (k : PrimKind) (L : Nat) :
    ∀ (cs : List (List (Option k.Base))), (∀ c ∈ cs, c.length = L) →
    ∀ acc : List (Option k.Base), acc.length = L →
      (cs.map k.mkArr).foldlM keep_larger (k.mkArr acc)
        = .ok (k.mkArr ((List.range L).map
            fun i => cs.foldl (fun v c => k.omax v (c.getD i none)) (acc.getD i none))) := by
  intro cs
  induction cs with
  | nil =>
    intro _ acc hacc
    rw [List.map_nil, List.foldlM_nil]
    have hlist : acc = (List.range L).map
        (fun i => ([] : List (List (Option k.Base))).foldl
          (fun v c => k.omax v (c.getD i none)) (acc.getD i none)) := by
      apply List.ext_getElem
      · simp [hacc]
      · intro n h1 h2
        simp only [List.getElem_map, List.getElem_range, List.foldl_nil]
        rw [List.getD_eq_getElem _ _ h1]
    rw [← hlist]
    rfl
  | cons c t ih =>
    intro hcs acc hacc
    have hc : c.length = L := hcs c (List.mem_cons_self c t)
    rw [List.map_cons, List.foldlM_cons, mkArr_keep_larger]
    have hmin : min acc.length c.length = L := by rw [hacc, hc, Nat.min_self]
    rw [hmin]
    show (t.map k.mkArr).foldlM keep_larger
        (k.mkArr ((List.range L).map fun i => k.omax (acc.getD i none) (c.getD i none)))
      = _
    rw [ih (fun c2 hc2 => hcs c2 (List.mem_cons_of_mem c hc2)) _ (by simp)]
    congr 1
    congr 1
    apply map_range_congr
    intro i hi
    rw [getD_map_range _ _ _ _ hi, List.foldl_cons]

lemma PrimKind.omax_none_left (k : PrimKind) (b : Option k.Base) :
    k.omax none b = b :=
  @omaxG_none_left k.Base k.ord b

lemma PrimKind.omax_none_right (k : PrimKind) (a : Option k.Base) :
    k.omax a none = a :=
  @omaxG_none_right k.Base k.ord a

lemma PrimKind.omax_comm (k : PrimKind) (a b : Option k.Base) :
    k.omax a b = k.omax b a :=
  @omaxG_comm k.Base k.ord a b

lemma PrimKind.omax_assoc (k : PrimKind) (a b c : Option k.Base) :
    k.omax (k.omax a b) c = k.omax a (k.omax b c) :=
  @omaxG_assoc k.Base k.ord a b c

/-- Split a well-kinded argument list into its scalar row values and its
column contents, tracking the filterMaps, the column lengths, and the row
values of the two filtered groups. -/
lemma kargs_split (k : PrimKind) (L : Nat) :
    ∀ args : List ColumnarValue, (∀ x ∈ args, KInput k L x) →
      ∃ (ss : List (Option k.Base)) (cs : List (List (Option k.Base))),
        args.filterMap extractScalar = ss.map k.mkScalar ∧
        args.filterMap extractArray = cs.map k.mkArr ∧
        (∀ c ∈ cs, c.length = L) ∧
        (∀ i : Nat,
          (args.filter fun x => (extractScalar x).isSome).map (rowValue k i) = ss) ∧
        (∀ i : Nat,
          (args.filter fun x => !(extractScalar x).isSome).map (rowValue k i)
            = cs.map fun c => c.getD i none) := by
  intro args
  induction args with
  | nil =>
    intro _
    exact ⟨[], [], rfl, rfl, by simp, fun i => rfl, fun i => rfl⟩
  | cons x rest ih =>
    intro h
    obtain ⟨ss, cs, h1, h2, h3, h4, h5⟩ := ih (fun y hy => h y (List.mem_cons_of_mem x hy))
    rcases h x (List.mem_cons_self x rest) with ⟨v, rfl⟩ | ⟨vs, hlen, rfl⟩
    · refine ⟨v :: ss, cs, ?_, ?_, h3, ?_, ?_⟩
      · simp [List.filterMap_cons, h1]
      · simp [List.filterMap_cons, h2]
      · intro i
        simpa [List.filter_cons, rowValue_mkScalar] using h4 i
      · intro i
        simpa [List.filter_cons] using h5 i
    · refine ⟨ss, vs :: cs, ?_, ?_, ?_, ?_, ?_⟩
      · simp [List.filterMap_cons, h1]
      · simp [List.filterMap_cons, h2]
      · intro c hc
        rcases List.mem_cons.mp hc with rfl | hc2
        · exact hlen
        · exact h3 c hc2
      · intro i
        simpa [List.filter_cons] using h4 i
      · intro i
        simpa [List.filter_cons, rowValue_mkArr] using h5 i

/-- Per-row semantics of `invoke` on one common non-nested kind: with at
least one column (of `L` rows each), the result is the column whose row `i`
is the fold of the null-minimizing maximum over the row-`i` values of all
arguments. -/
lemma invoke_rows (k : PrimKind) (L : Nat) (args : List ColumnarValue)
    (h : ∀ x ∈ args, KInput k L x) (hl : 2 ≤ args.length)
    (hc : ∃ x ∈ args, ∃ a, x = ColumnarValue.Array a) :
    invoke args = .ok (.Array (k.mkArr ((List.range L).map
      fun i => (args.map (rowValue k i)).foldl k.omax none))) := by
  obtain ⟨ss, cs, h1, h2, h3, h4, h5⟩ := kargs_split k L args h
  obtain ⟨x, hx, a, rfl⟩ := hc
  have hmem : a ∈ args.filterMap extractArray :=
    List.mem_filterMap.mpr ⟨_, hx, rfl⟩
  have hcs_ne : cs ≠ [] := by
    intro hnil
    rw [h2, hnil] at hmem
    simp at hmem
  obtain ⟨c, crest, rfl⟩ : ∃ c crest, cs = c :: crest := by
    cases cs with
    | nil => exact absurd rfl hcs_ne
    | cons c t => exact ⟨c, t, rfl⟩
  have hcl : c.length = L := h3 c (List.mem_cons_self c crest)
  subst hcl
  haveI hrc : RightCommutative k.omax :=
    ⟨fun b a1 a2 => by
      rw [PrimKind.omax_assoc, PrimKind.omax_assoc, PrimKind.omax_comm k a1 a2]⟩
  have hrow : ∀ i : Nat, (args.map (rowValue k i)).foldl k.omax none
      = crest.foldl (fun v cc => k.omax v (cc.getD i none))
          (k.omax (ss.foldl k.omax none) (c.getD i none)) := by
    intro i
    have hperm :=
      (List.filter_append_perm (fun x => (extractScalar x).isSome) args).map (rowValue k i)
    rw [← hperm.foldl_eq none, List.map_append, h4 i, h5 i, List.foldl_append,
      List.foldl_map, List.foldl_cons]
  rw [invoke_eq_core args hl, h1, h2]
  cases ss with
  | nil =>
    rw [List.map_nil, List.map_cons]
    have hfold := foldlM_mkArr k c.length crest
      (fun c2 hc2 => h3 c2 (List.mem_cons_of_mem c hc2)) c rfl
    have hL2 : invokeCore [] (k.mkArr c :: crest.map k.mkArr)
        = .ok (.Array (k.mkArr ((List.range c.length).map
            fun i => crest.foldl (fun v cc => k.omax v (cc.getD i none))
              (c.getD i none)))) := by
      simp [invokeCore, hfold]
    rw [hL2]
    congr 1
    congr 1
    congr 1
    apply map_range_congr
    intro i hi
    rw [hrow i, List.foldl_nil, PrimKind.omax_none_left]
  | cons s srest =>
    rw [List.map_cons, List.map_cons]
    have hm := foldlM_mkScalar k srest s
    have hbc : (k.mkScalar (srest.foldl k.omax s)).to_array_of_size (k.mkArr c).len
        = k.mkArr (List.replicate c.length (srest.foldl k.omax s)) := by
      rw [mkScalar_to_array_of_size, mkArr_len]
    have hseed := mkArr_keep_larger k c
      (List.replicate c.length (srest.foldl k.omax s))
    rw [List.length_replicate, Nat.min_self] at hseed
    have hseed2 : keep_larger (k.mkArr c)
        ((k.mkScalar (srest.foldl k.omax s)).to_array_of_size (k.mkArr c).len)
        = .ok (k.mkArr ((List.range c.length).map fun i =>
            k.omax (c.getD i none)
              ((List.replicate c.length (srest.foldl k.omax s)).getD i none))) := by
      rw [hbc]
      exact hseed
    have hfold := foldlM_mkArr k c.length crest
      (fun c2 hc2 => h3 c2 (List.mem_cons_of_mem c hc2))
      ((List.range c.length).map fun i =>
        k.omax (c.getD i none)
          ((List.replicate c.length (srest.foldl k.omax s)).getD i none))
      (by simp)
    have hL2 : invokeCore (k.mkScalar s :: srest.map k.mkScalar)
        (k.mkArr c :: crest.map k.mkArr)
        = .ok (.Array (k.mkArr ((List.range c.length).map
            fun i => crest.foldl (fun v cc => k.omax v (cc.getD i none))
              (((List.range c.length).map fun j =>
                k.omax (c.getD j none)
                  ((List.replicate c.length (srest.foldl k.omax s)).getD j none)).getD
                    i none)))) := by
      simp only [invokeCore, hm, Except.map, hseed2, hfold]
    rw [hL2]
    congr 1
    congr 1
    congr 1
    apply map_range_congr
    intro i hi
    rw [getD_map_range _ _ _ _ hi, getD_replicate_lt _ _ _ _ hi, hrow i,
      List.foldl_cons, PrimKind.omax_none_left,
      PrimKind.omax_comm k (c.getD i none) (srest.foldl k.omax s)]

/-- C8: on inputs of one common non-nested kind with equal row counts, the
result of `invoke` depends only on the multiset of values each row receives:
any redistribution of the same per-row values between scalar positions and
column positions (in particular any that keeps each group's internal order)
leaves the output unchanged. -/
theorem invoke_scalar_column_split_invariant (k : PrimKind) (L : Nat)
    (args args2 : List ColumnarValue)
    (h : ∀ x ∈ args, KInput k L x) (h2 : ∀ x ∈ args2, KInput k L x)
    (hl : 2 ≤ args.length) (hl2 : 2 ≤ args2.length)
    (hc : ∃ x ∈ args, ∃ a, x = ColumnarValue.Array a)
    (hc2 : ∃ x ∈ args2, ∃ a, x = ColumnarValue.Array a)
    (hperm : ∀ i, i < L →
      (args.map (rowValue k i)).Perm (args2.map (rowValue k i))) :
    invoke args = invoke args2 := by
  rw [invoke_rows k L args h hl hc, invoke_rows k L args2 h2 hl2 hc2]
  haveI hrc : RightCommutative k.omax :=
    ⟨fun b a1 a2 => by
      rw [PrimKind.omax_assoc, PrimKind.omax_assoc, PrimKind.omax_comm k a1 a2]⟩
  congr 1
  congr 1
  congr 1
  apply map_range_congr
  intro i hi
  exact (hperm i hi).foldl_eq none

theorem invoke_scalar_column_split_invariant_witness :
    invoke [ColumnarValue.Scalar (.int32 (some 5)),
            ColumnarValue.Array (.int32 [some 1, some 9])]
      = invoke [ColumnarValue.Array (.int32 [some 5, some 5]),
                ColumnarValue.Array (.int32 [some 1, some 9])] :=
  invoke_scalar_column_split_invariant .pint 2
    [ColumnarValue.Scalar (.int32 (some 5)),
     ColumnarValue.Array (.int32 [some 1, some 9])]
    [ColumnarValue.Array (.int32 [some 5, some 5]),
     ColumnarValue.Array (.int32 [some 1, some 9])]
    (by
      intro x hx
      rcases List.mem_cons.mp hx with rfl | hx2
      · exact Or.inl ⟨some 5, rfl⟩
      · rcases List.mem_cons.mp hx2 with rfl | hx3
        · exact Or.inr ⟨[some 1, some 9], rfl, rfl⟩
        · cases hx3)
    (by
      intro x hx
      rcases List.mem_cons.mp hx with rfl | hx2
      · exact Or.inr ⟨[some 5, some 5], rfl, rfl⟩
      · rcases List.mem_cons.mp hx2 with rfl | hx3
        · exact Or.inr ⟨[some 1, some 9], rfl, rfl⟩
        · cases hx3)
    (by decide) (by decide)
    ⟨ColumnarValue.Array (.int32 [some 1, some 9]),
      by simp, .int32 [some 1, some 9], rfl⟩
    ⟨ColumnarValue.Array (.int32 [some 5, some 5]),
      by simp, .int32 [some 5, some 5], rfl⟩
    (by
      intro i hi
      interval_cases i
      · decide
      · decide)

end Greatest
